import Mathlib

/-!
Verification of the demobid auction server (src/main.go).

The Go program exposes two HTTP handlers:

* `HandlerBid` parses the `dsp` and `p` query parameters
  (`strconv.ParseUint(dsp, 10, 32)` and `strconv.ParseFloat(p, 64)`),
  validates `1 <= dsp <= MaxDSP`, and answers
  `price = math.Round((floor + rand.Float64()*100) * 100) / 100`.
* `HandlerAuction` draws one floor price, fans out one `askDSP` worker per
  bidder id `1..MaxDSP` (each building a URL with `makeBidURL`, which
  formats the floor with `strconv.FormatFloat(floor, 'f', 3, 64)`),
  collects successful results in arrival order, sorts them with
  `sort.Sort` under `Less(i,j) = BidPrice[i] < BidPrice[j]`, and takes the
  last element of the sorted slice as the winner.

The embedding models prices as rationals, `math.Round` as
round-half-away-from-zero, the decimal fragment of the two `strconv`
parsers, and `sort.Sort` as the stable insertion sort Go actually runs on
slices of length below 12 (a left-to-right insertion that moves an
element left only past strictly greater ones).  Concurrency is modelled
by quantifying over the arrival order (any permutation of the bidder ids)
and over one outcome per worker.
-/

/-- Number of simulated bidders, `const MaxDSP = 3` in src/main.go. -/
def MaxDSP : ℕ := 3

/-- Go `math.Round`: rounds half away from zero. -/
def goRound (q : ℚ) : ℚ :=
  if 0 ≤ q then ((⌊q + 1/2⌋ : ℤ) : ℚ) else -((⌊-q + 1/2⌋ : ℤ) : ℚ)

/-- Rounding to 2 decimal places, `math.Round(x*100)/100` in `HandlerBid`. -/
def round2 (q : ℚ) : ℚ := goRound (q * 100) / 100

/-- Numeric value of `strconv.FormatFloat(floor, 'f', 3, 64)` used by
`makeBidURL`: the floor rounded to 3 decimal places. -/
def round3 (q : ℚ) : ℚ := goRound (q * 1000) / 1000

/-- Numeric value of a string of decimal digits, most significant first. -/
def decimalVal (l : List Char) : ℕ :=
  l.foldl (fun acc c => acc * 10 + (c.toNat - 48)) 0

/-- Go `strconv.ParseUint(s, 10, 32)`: a nonempty all-digit string (no
sign is permitted), erroring when the value overflows 32 bits.  `none`
models any parse error. -/
def goParseUint32 (s : String) : Option ℕ :=
  let cs := s.data
  if cs ≠ [] ∧ cs.all Char.isDigit = true ∧ decimalVal cs < 2 ^ 32 then
    some (decimalVal cs)
  else none

/-- Optional leading sign of a character string: `(negative?, rest)`. -/
def splitSign (cs : List Char) : Bool × List Char :=
  match cs with
  | c :: r => if c = '-' then (true, r) else if c = '+' then (false, r) else (false, cs)
  | [] => (false, [])

/-- Components of a decimal literal `[sign]digits[.digits]` with at least
one digit: `(negative?, integer part, fractional part, fractional
length)`; `none` on any other shape. -/
def decParts (cs0 : List Char) : Option (Bool × ℕ × ℕ × ℕ) :=
  let cs := (splitSign cs0).2
  let intPart := cs.takeWhile Char.isDigit
  match cs.dropWhile Char.isDigit with
  | [] => if intPart = [] then none else some ((splitSign cs0).1, decimalVal intPart, 0, 0)
  | c :: frac =>
    if c = '.' ∧ frac.all Char.isDigit = true ∧ (intPart ≠ [] ∨ frac ≠ []) then
      some ((splitSign cs0).1, decimalVal intPart, decimalVal frac, frac.length)
    else none

/-- Rational value of parsed decimal components. -/
def ratOfDec (neg : Bool) (intVal fracVal fracLen : ℕ) : ℚ :=
  (if neg then -1 else 1) * ((intVal : ℚ) + (fracVal : ℚ) / 10 ^ fracLen)

/-- Decimal fragment of Go `strconv.ParseFloat(s, 64)`: an optional sign
followed by digits with an optional fractional part (at least one digit
overall).  Exponent, hexadecimal and inf/nan forms, which the program
never sends, are not modelled. -/
def goParseFloat (s : String) : Option ℚ :=
  (decParts s.data).map fun t => ratOfDec t.1 t.2.1 t.2.2.1 t.2.2.2

/-- Observable outcome of one `HandlerBid` request: a 400 for a bad `dsp`
parameter, a 400 for a bad `p` parameter, or a 200 carrying the computed
price.  The error constructors carry no price: none is computed on those
paths. -/
inductive BidOutcome where
  | badDsp
  | badP
  | ok (price : ℚ)
deriving DecidableEq, Repr

/-- Price computed by `HandlerBid`:
`math.Round((floor + rand.Float64()*100)*100)/100`, with `u01` standing
for the `rand.Float64()` draw in `[0,1)`. -/
def bidPriceVal (floor u01 : ℚ) : ℚ := round2 (floor + u01 * 100)

/-- Go `HandlerBid`: parse `dsp`, reject unless `1 <= dsp <= MaxDSP`,
parse `p`, then answer the rounded price.  `u01` is the `rand.Float64()`
draw. -/
def HandlerBid (dspStr pStr : String) (u01 : ℚ) : BidOutcome :=
  match goParseUint32 dspStr with
  | none => BidOutcome.badDsp
  | some dsp =>
    if MaxDSP < dsp ∨ dsp < 1 then BidOutcome.badDsp
    else
      match goParseFloat pStr with
      | some floor => BidOutcome.ok (bidPriceVal floor u01)
      | none => BidOutcome.badP

/-- Go `DspResult`: one collected bid. -/
structure DspResult where
  DSPId : ℕ
  BidPrice : ℚ
deriving DecidableEq, Repr

/-- One step of Go's insertion sort: the new element `x` moves left past
strictly greater elements only (`Less` compares `BidPrice` with `<`), so
it lands after every earlier element whose price is `≤` its own. -/
def insertRes (x : DspResult) : List DspResult → List DspResult
  | [] => [x]
  | y :: ys => if y.BidPrice ≤ x.BidPrice then y :: insertRes x ys else x :: y :: ys

/-- Go `sort.Sort(dspResults)` with `DspResults.Less(i,j) = BidPrice[i] <
BidPrice[j]`: on slices shorter than 12 elements (always the case here,
`MaxDSP = 3`) Go runs exactly this stable left-to-right insertion sort. -/
def sortResults (rs : List DspResult) : List DspResult :=
  rs.foldl (fun acc x => insertRes x acc) []

/-- Winner selection in `HandlerAuction`: `sort.Sort(dspResults)` followed
by `winner := dspResults[len(dspResults)-1]`.  The final read is a
fallible slice access, modelled by `getLast?`; on an empty slice Go
panics with an index out of range, modelled by `none`. -/
def selectWinner (rs : List DspResult) : Option DspResult :=
  (sortResults rs).getLast?

/-- Tie-break the code actually implements, as a direct fold step: keep
the later entry whenever its price is at least the current best. -/
def pickLater (acc x : DspResult) : DspResult :=
  if acc.BidPrice ≤ x.BidPrice then x else acc

/-- Arrival-order-last entry attaining the maximum price of `r :: rest`. -/
def lastMaxEntry (r : DspResult) (rest : List DspResult) : DspResult :=
  rest.foldl pickLater r

/-- Outcome of one `askDSP` worker's outbound call: `client.Get` failed
(connection error or timeout), `json.Unmarshal` failed on the body, or a
parsed price came back. -/
inductive DspOutcome where
  | getErr
  | unmarshalErr
  | ok (price : ℚ)
deriving DecidableEq, Repr

/-- Go `askDSP`: on a `client.Get` error or a `json.Unmarshal` error it
returns early and sends nothing to the queue (`none`); on success it
sends `DspResult{DSPId: dspId, BidPrice: resp.Price}`. -/
def askDSP (dspId : ℕ) : DspOutcome → Option DspResult
  | DspOutcome.getErr => none
  | DspOutcome.unmarshalErr => none
  | DspOutcome.ok price => some { DSPId := dspId, BidPrice := price }

/-- Contents of `dspResults` after the aggregator goroutine drains the
queue: the deliveries of the successful workers, in arrival order.
`arrival` is the order in which the workers' sends reach the queue (in
the program: some permutation of the bidder ids), `outcomes` the
per-worker outcome. -/
def collectResults (arrival : List ℕ) (outcomes : ℕ → DspOutcome) : List DspResult :=
  arrival.filterMap fun i => askDSP i (outcomes i)

/-- Go `HandlerAuction` after the fan-out: wait for all workers, drain
the queue, sort and take the last element as the winner. -/
def HandlerAuction (arrival : List ℕ) (outcomes : ℕ → DspOutcome) : Option DspResult :=
  selectWinner (collectResults arrival outcomes)

/-- URL built by `makeBidURL`: the `p` parameter carries the floor
formatted to 3 decimal places (its numeric value is `round3 floor`), the
`dsp` parameter the bidder id. -/
structure BidURL where
  p : ℚ
  dsp : ℕ
deriving DecidableEq, Repr

/-- Go `makeBidURL(floor, dspId)`. -/
def makeBidURL (floor : ℚ) (dspId : ℕ) : BidURL :=
  { p := round3 floor, dsp := dspId }

/-- The outbound calls of one auction round: the `for dspId := 1; dspId <
MaxDSP+1; dspId++` fan-out loop of `HandlerAuction`, every worker sharing
the single floor drawn for the round. -/
def fanOutURLs (floor : ℚ) : List BidURL :=
  (List.range' 1 MaxDSP).map fun dspId => makeBidURL floor dspId

/-- Price order used by the sort. -/
def priceLE (a b : DspResult) : Prop := a.BidPrice ≤ b.BidPrice

/-- Effect of one insertion on the last element of a sorted list. -/
def gStep (o : Option DspResult) (x : DspResult) : Option DspResult :=
  some (match o with
        | none => x
        | some y => pickLater y x)

/-! Helper lemmas about the insertion sort and winner selection. -/

lemma insertRes_ne_nil (x : DspResult) (l : List DspResult) : insertRes x l ≠ [] := by
  cases l with
  | nil => simp [insertRes]
  | cons y ys => simp only [insertRes]; split <;> simp

lemma insertRes_perm (x : DspResult) (l : List DspResult) :
    (insertRes x l).Perm (x :: l) := by
  induction l with
  | nil => exact List.Perm.refl _
  | cons y ys ih =>
    simp only [insertRes]
    split
    · exact (ih.cons y).trans (List.Perm.swap x y ys)
    · exact List.Perm.refl _

lemma sorted_insertRes (x : DspResult) {l : List DspResult}
    (h : List.Sorted priceLE l) : List.Sorted priceLE (insertRes x l) := by
  induction l with
  | nil => simp [insertRes]
  | cons y ys ih =>
    rw [List.sorted_cons] at h
    simp only [insertRes]
    split
    case isTrue hyx =>
      rw [List.sorted_cons]
      refine ⟨fun b hb => ?_, ih h.2⟩
      rcases List.mem_cons.mp ((insertRes_perm x ys).mem_iff.mp hb) with rfl | hb2
      · exact hyx
      · exact h.1 b hb2
    case isFalse hxy =>
      rw [List.sorted_cons]
      refine ⟨fun b hb => ?_, List.sorted_cons.mpr h⟩
      rcases List.mem_cons.mp hb with rfl | hb2
      · exact le_of_lt (not_le.mp hxy)
      · exact (le_of_lt (not_le.mp hxy)).trans (h.1 b hb2)

lemma getLast?_cons_of_ne_nil {α : Type _} (a : α) {t : List α} (h : t ≠ []) :
    (a :: t).getLast? = t.getLast? := by
  cases t with
  | nil => exact absurd rfl h
  | cons b u => exact List.getLast?_cons_cons

lemma getLast?_insertRes (x : DspResult) {l : List DspResult}
    (h : List.Sorted priceLE l) : (insertRes x l).getLast? = gStep l.getLast? x := by
  induction l with
  | nil => simp [insertRes, gStep]
  | cons y ys ih =>
    rw [List.sorted_cons] at h
    simp only [insertRes]
    split
    case isTrue hyx =>
      cases ys with
      | nil => simp [insertRes, gStep, pickLater, hyx]
      | cons z zs =>
        rw [getLast?_cons_of_ne_nil y (insertRes_ne_nil x (z :: zs)),
          ih h.2, List.getLast?_cons_cons]
    case isFalse hxy =>
      rw [List.getLast?_cons_cons,
        List.getLast?_eq_getLast (y :: ys) (List.cons_ne_nil y ys)]
      have hmem := List.getLast_mem (List.cons_ne_nil y ys)
      have hyz : y.BidPrice ≤ ((y :: ys).getLast (List.cons_ne_nil y ys)).BidPrice := by
        rcases List.mem_cons.mp hmem with he | he
        · simp [he]
        · exact h.1 _ he
      have : ¬ ((y :: ys).getLast (List.cons_ne_nil y ys)).BidPrice ≤ x.BidPrice :=
        not_le.mpr (lt_of_lt_of_le (not_le.mp hxy) hyz)
      simp [gStep, pickLater, this]

lemma foldl_insertRes_getLast? (rs : List DspResult) :
    ∀ acc : List DspResult, List.Sorted priceLE acc →
      (rs.foldl (fun a x => insertRes x a) acc).getLast? = rs.foldl gStep acc.getLast? := by
  induction rs with
  | nil => intro acc _; rfl
  | cons x t ih =>
    intro acc h
    simp only [List.foldl_cons]
    rw [ih (insertRes x acc) (sorted_insertRes x h), getLast?_insertRes x h]

lemma foldl_gStep_some (rest : List DspResult) :
    ∀ r, rest.foldl gStep (some r) = some (lastMaxEntry r rest) := by
  induction rest with
  | nil => intro r; rfl
  | cons x t ih =>
    intro r
    simp only [List.foldl_cons, lastMaxEntry]
    exact ih (pickLater r x)

/-- Winner of a nonempty slice: the arrival-order-last maximal entry. -/
lemma selectWinner_eq_lastMax (r : DspResult) (rest : List DspResult) :
    selectWinner (r :: rest) = some (lastMaxEntry r rest) := by
  unfold selectWinner sortResults
  rw [foldl_insertRes_getLast? (r :: rest) [] (List.sorted_nil)]
  simp only [List.foldl_cons, List.getLast?_nil]
  exact foldl_gStep_some rest r

lemma lastMaxEntry_mem (rest : List DspResult) :
    ∀ r, lastMaxEntry r rest ∈ r :: rest := by
  induction rest with
  | nil => intro r; simp [lastMaxEntry]
  | cons x t ih =>
    intro r
    have h := ih (pickLater r x)
    simp only [lastMaxEntry, List.foldl_cons] at h ⊢
    rcases List.mem_cons.mp h with he | he
    · rw [he]
      unfold pickLater
      split
      · exact List.mem_cons_of_mem _ (List.mem_cons_self _ _)
      · exact List.mem_cons_self _ _
    · exact List.mem_cons_of_mem _ (List.mem_cons_of_mem _ he)

lemma le_lastMaxEntry (rest : List DspResult) :
    ∀ r, ∀ e ∈ r :: rest, e.BidPrice ≤ (lastMaxEntry r rest).BidPrice := by
  induction rest with
  | nil =>
    intro r e he
    rcases List.mem_cons.mp he with rfl | he2
    · exact le_refl _
    · exact absurd he2 (List.not_mem_nil e)
  | cons x t ih =>
    intro r e he
    simp only [lastMaxEntry, List.foldl_cons]
    have hr : r.BidPrice ≤ (pickLater r x).BidPrice := by
      unfold pickLater; split
      · assumption
      · exact le_refl _
    have hx : x.BidPrice ≤ (pickLater r x).BidPrice := by
      unfold pickLater; split
      · exact le_refl _
      · exact le_of_lt (not_le.mp (by assumption))
    have hlast := ih (pickLater r x) (pickLater r x) (List.mem_cons_self _ _)
    rcases List.mem_cons.mp he with rfl | he2
    · exact hr.trans hlast
    · rcases List.mem_cons.mp he2 with rfl | he3
      · exact hx.trans hlast
      · exact ih (pickLater r x) e (List.mem_cons_of_mem _ he3)

lemma selectWinner_mem {rs : List DspResult} {w : DspResult}
    (h : selectWinner rs = some w) : w ∈ rs := by
  cases rs with
  | nil => simp [selectWinner, sortResults] at h
  | cons r rest =>
    rw [selectWinner_eq_lastMax] at h
    injection h with h'
    rw [← h']
    exact lastMaxEntry_mem rest r

lemma selectWinner_ge {rs : List DspResult} {w : DspResult}
    (h : selectWinner rs = some w) : ∀ e ∈ rs, e.BidPrice ≤ w.BidPrice := by
  cases rs with
  | nil => simp [selectWinner, sortResults] at h
  | cons r rest =>
    rw [selectWinner_eq_lastMax] at h
    injection h with h'
    rw [← h']
    exact le_lastMaxEntry rest r

lemma askDSP_some {i : ℕ} {o : DspOutcome} {r : DspResult}
    (h : askDSP i o = some r) : r.DSPId = i := by
  cases o with
  | getErr => simp [askDSP] at h
  | unmarshalErr => simp [askDSP] at h
  | ok price => simp [askDSP] at h; rw [← h]

lemma selectWinner_spec {rs : List DspResult} (hne : rs ≠ []) :
    ∃ w, selectWinner rs = some w ∧ w ∈ rs ∧ ∀ r ∈ rs, r.BidPrice ≤ w.BidPrice := by
  cases rs with
  | nil => exact absurd rfl hne
  | cons r rest =>
    exact ⟨lastMaxEntry r rest, selectWinner_eq_lastMax r rest,
      lastMaxEntry_mem rest r, le_lastMaxEntry rest r⟩

/-! Claim theorems. -/

/-- C1 (code bug evaluation): when all three workers fail, the collected
slice is empty, yet `HandlerAuction` still runs `sort.Sort` on it and
reads `dspResults[len(dspResults)-1]` — an access with no value on the
empty slice (Go panics with an index out of range, modelled by `none`).
No `NoRespondents` outcome exists anywhere in the handler. -/
theorem auction_all_failed_reads_empty :
    collectResults [1, 2, 3] (fun _ => DspOutcome.getErr) = [] ∧
      HandlerAuction [1, 2, 3] (fun _ => DspOutcome.getErr) = none ∧
      selectWinner [] = none :=
  ⟨rfl, rfl, rfl⟩

/-- C2: for every nonempty collected slice, the selected winner is an
entry of the slice whose `BidPrice` is the maximum over all entries. -/
theorem winner_attains_max (rs : List DspResult) (hne : rs ≠ []) :
    ∃ w, selectWinner rs = some w ∧ w ∈ rs ∧ ∀ r ∈ rs, r.BidPrice ≤ w.BidPrice :=
  selectWinner_spec hne

/-- C2 witness: the spec's worked example, offers 10.20, 15.70, 12.10
from bidders 1, 2, 3; the winner is bidder 2 with 15.70. -/
theorem winner_attains_max_witness :
    ∃ w, selectWinner [⟨1, 102/10⟩, ⟨2, 157/10⟩, ⟨3, 121/10⟩] = some w ∧
      w ∈ [⟨1, 102/10⟩, ⟨2, 157/10⟩, ⟨3, 121/10⟩] ∧
      ∀ r ∈ [(⟨1, 102/10⟩ : DspResult), ⟨2, 157/10⟩, ⟨3, 121/10⟩],
        r.BidPrice ≤ w.BidPrice :=
  winner_attains_max _ (by simp)

/-- C3 counterexample: bidders 1 and 2 both bid 20.00; with arrival order
[bidder 1, bidder 2] the selected winner is bidder 2 — not the tied entry
with the lowest identity. -/
theorem tie_won_by_higher_identity :
    selectWinner [⟨1, 20⟩, ⟨2, 20⟩] = some ⟨2, 20⟩ ∧ (2 : ℕ) ≠ 1 :=
  ⟨by norm_num [selectWinner, sortResults, insertRes], by decide⟩

/-- C3 amended: the winner of a nonempty collected slice is the
arrival-order-last entry attaining the maximum price — `Less` compares
prices strictly, so the insertion sort never reorders tied entries and
the last tied entry wins, regardless of bidder identity. -/
theorem winner_is_last_max (r : DspResult) (rest : List DspResult) :
    selectWinner (r :: rest) = some (lastMaxEntry r rest) :=
  selectWinner_eq_lastMax r rest

/-- C4 counterexample: permuting two tied entries changes the selected
winner's identity, so the outcome is not invariant under permutation of
the collected slice. -/
theorem perm_changes_winner :
    selectWinner [⟨1, 20⟩, ⟨2, 20⟩] = some ⟨2, 20⟩ ∧
      selectWinner [⟨2, 20⟩, ⟨1, 20⟩] = some ⟨1, 20⟩ ∧
      List.Perm [(⟨1, 20⟩ : DspResult), ⟨2, 20⟩] [⟨2, 20⟩, ⟨1, 20⟩] ∧
      (⟨2, 20⟩ : DspResult) ≠ ⟨1, 20⟩ :=
  ⟨by norm_num [selectWinner, sortResults, insertRes],
   by norm_num [selectWinner, sortResults, insertRes],
   List.Perm.swap _ _ _,
   by simp⟩

/-- C4 amended: the winner's price is invariant under any permutation of
the collected slice — it is the maximum of the multiset of offers — but
the winning identity may change when that maximum is tied. -/
theorem winner_price_perm_invariant (rs1 rs2 : List DspResult)
    (hperm : rs1.Perm rs2) (hne : rs1 ≠ []) :
    (selectWinner rs1).map DspResult.BidPrice =
      (selectWinner rs2).map DspResult.BidPrice := by
  have hne2 : rs2 ≠ [] := by
    intro h
    subst h
    exact hne hperm.eq_nil
  obtain ⟨w1, hw1, hm1, hmax1⟩ := selectWinner_spec hne
  obtain ⟨w2, hw2, hm2, hmax2⟩ := selectWinner_spec hne2
  have h12 : w1.BidPrice ≤ w2.BidPrice := hmax2 w1 (hperm.mem_iff.mp hm1)
  have h21 : w2.BidPrice ≤ w1.BidPrice := hmax1 w2 (hperm.mem_iff.mpr hm2)
  rw [hw1, hw2, Option.map_some', Option.map_some', le_antisymm h12 h21]

/-- C4 witness: the two tied arrival orders of the counterexample produce
winners with the same price. -/
theorem winner_price_perm_invariant_witness :
    (selectWinner [⟨1, 20⟩, ⟨2, 20⟩]).map DspResult.BidPrice =
      (selectWinner [⟨2, 20⟩, ⟨1, 20⟩]).map DspResult.BidPrice :=
  winner_price_perm_invariant _ _ (List.Perm.swap _ _ _) (by simp)

lemma round2_bounds {x : ℚ} (hx : 0 ≤ x) :
    x - 1/200 ≤ round2 x ∧ round2 x ≤ x + 1/200 := by
  have h0 : (0:ℚ) ≤ x * 100 := by positivity
  have hlo := Int.sub_one_lt_floor (x * 100 + 1/2)
  have hhi := Int.floor_le (x * 100 + 1/2)
  unfold round2 goRound
  rw [if_pos h0]
  constructor
  · linarith
  · linarith

lemma round2_denom {x : ℚ} (hx : 0 ≤ x) : ∃ n : ℤ, round2 x = (n : ℚ) / 100 := by
  refine ⟨⌊x * 100 + 1/2⌋, ?_⟩
  unfold round2 goRound
  rw [if_pos (by positivity : (0:ℚ) ≤ x * 100)]

lemma goParseFloat_five : goParseFloat "5" = some 5 := by
  have h : decParts "5".data = some (false, 5, 0, 0) := by decide
  simp [goParseFloat, h, ratOfDec]

/-- C5 amended: for a valid `dsp` and a parseable nonnegative floor, the
endpoint returns exactly `round2 (floor + u)` where `u = 100 *
rand.Float64() ∈ [0, 100)`; that price is an integer number of cents and
lies within half a cent of `[floor, floor + 100)` — it can undershoot the
floor (and overshoot `floor + 100`) by up to `1/200` because the rounding
is applied after adding the offset. -/
theorem bid_price_formula (dspStr pStr : String) (u01 floor : ℚ) (d : ℕ)
    (hd : goParseUint32 dspStr = some d) (hd1 : 1 ≤ d) (hd3 : d ≤ MaxDSP)
    (hp : goParseFloat pStr = some floor) (hf : 0 ≤ floor)
    (hu0 : 0 ≤ u01) (hu1 : u01 < 1) :
    HandlerBid dspStr pStr u01 = BidOutcome.ok (bidPriceVal floor u01) ∧
      floor - 1/200 ≤ bidPriceVal floor u01 ∧
      bidPriceVal floor u01 < floor + 100 + 1/200 ∧
      ∃ n : ℤ, bidPriceVal floor u01 = (n : ℚ) / 100 := by
  have hd3' : d ≤ 3 := hd3
  have hu100 : 0 ≤ u01 * 100 := by positivity
  have hu100' : u01 * 100 < 100 := by linarith
  have hx : (0:ℚ) ≤ floor + u01 * 100 := by linarith
  refine ⟨?_, ?_, ?_, ?_⟩
  · simp only [HandlerBid, hd, hp]
    rw [if_neg (show ¬ (MaxDSP < d ∨ d < 1) by
      show ¬ (3 < d ∨ d < 1); omega)]
  · have := (round2_bounds hx).1
    unfold bidPriceVal
    linarith
  · have := (round2_bounds hx).2
    unfold bidPriceVal
    linarith
  · exact round2_denom hx

/-- C5 witness: `dsp=2`, `p=5`, zero random draw. -/
theorem bid_price_formula_witness :
    HandlerBid "2" "5" 0 = BidOutcome.ok (bidPriceVal 5 0) ∧
      (5:ℚ) - 1/200 ≤ bidPriceVal 5 0 ∧
      bidPriceVal 5 0 < 5 + 100 + 1/200 ∧
      ∃ n : ℤ, bidPriceVal 5 0 = (n : ℚ) / 100 :=
  bid_price_formula "2" "5" 0 5 2 (by decide) (by decide) (by decide)
    goParseFloat_five (by decide) (by decide) (by decide)

/-- C5 counterexample: floor `0.004` with a zero random draw yields price
`0.00`, which is strictly below the floor — the returned price does not
lie in `[floor, floor + 100]`. -/
theorem bid_price_below_floor :
    HandlerBid "1" "0.004" 0 = BidOutcome.ok 0 ∧
      goParseFloat "0.004" = some (1/250) ∧ (0:ℚ) < 1/250 := by
  have hp : goParseFloat "0.004" = some (1/250) := by
    have h : decParts "0.004".data = some (false, 0, 4, 3) := by decide
    simp [goParseFloat, h, ratOfDec]
    norm_num
  refine ⟨?_, hp, by norm_num⟩
  simp only [HandlerBid, show goParseUint32 "1" = some 1 from by decide, hp]
  rw [if_neg (show ¬ (MaxDSP < 1 ∨ 1 < 1) by decide)]
  have : bidPriceVal (1/250) 0 = 0 := by
    unfold bidPriceVal round2 goRound
    norm_num
  rw [this]

/-- C6 amended: a `dsp` parameter that does not parse as an unsigned
32-bit decimal integer, or whose value is outside `[1, MaxDSP]`, is
rejected with the bad-dsp 400; with a valid `dsp`, a missing or
unparseable `p` is rejected with the bad-p 400.  Neither rejection
computes a price.  (A parseable negative `p` is not rejected — see the
counterexample.) -/
theorem bid_rejects_bad_params (dspStr pStr : String) (u01 : ℚ) :
    ((goParseUint32 dspStr = none ∨
        ∃ d, goParseUint32 dspStr = some d ∧ (d < 1 ∨ MaxDSP < d)) →
      HandlerBid dspStr pStr u01 = BidOutcome.badDsp) ∧
    (∀ d, goParseUint32 dspStr = some d → 1 ≤ d → d ≤ MaxDSP →
      goParseFloat pStr = none → HandlerBid dspStr pStr u01 = BidOutcome.badP) := by
  constructor
  · rintro (h | ⟨d, hd, hrange⟩)
    · simp only [HandlerBid, h]
    · simp only [HandlerBid, hd]
      rw [if_pos (show MaxDSP < d ∨ d < 1 from hrange.symm.imp id id)]
  · intro d hd h1 h3 hp
    have h3' : d ≤ 3 := h3
    simp only [HandlerBid, hd, hp]
    rw [if_neg (show ¬ (MaxDSP < d ∨ d < 1) by
      show ¬ (3 < d ∨ d < 1); omega)]

/-- C6 witness: `dsp=4` is rejected as bad-dsp; with `dsp=1`, the
unparseable `p=x` is rejected as bad-p. -/
theorem bid_rejects_bad_params_witness :
    HandlerBid "4" "5" 0 = BidOutcome.badDsp ∧
      HandlerBid "1" "x" 0 = BidOutcome.badP :=
  ⟨(bid_rejects_bad_params "4" "5" 0).1 (Or.inr ⟨4, by decide, by decide⟩),
   (bid_rejects_bad_params "1" "x" 0).2 1 (by decide) (by decide) (by decide)
     (by decide)⟩

/-- C6 counterexample: `p=-5` parses as the negative real −5, yet the
request is not rejected — a price is computed from the negative floor. -/
theorem negative_p_accepted :
    HandlerBid "1" "-5" 0 = BidOutcome.ok (-5) ∧
      goParseFloat "-5" = some (-5) ∧ (-5:ℚ) < 0 := by
  have hp : goParseFloat "-5" = some (-5) := by
    have h : decParts "-5".data = some (true, 5, 0, 0) := by decide
    simp [goParseFloat, h, ratOfDec]
  refine ⟨?_, hp, by norm_num⟩
  simp only [HandlerBid, show goParseUint32 "1" = some 1 from by decide, hp]
  rw [if_neg (show ¬ (MaxDSP < 1 ∨ 1 < 1) by decide)]
  have : bidPriceVal (-5) 0 = -5 := by
    unfold bidPriceVal round2 goRound
    norm_num
  rw [this]

/-- C7: one auction round issues exactly `MaxDSP` outbound calls, one per
bidder identity 1, 2, 3, and every call's `p` parameter carries the same
value — the round's single floor formatted to 3 decimals. -/
theorem fanout_three_calls_one_floor (floor : ℚ) :
    (fanOutURLs floor).length = MaxDSP ∧
      (fanOutURLs floor).map BidURL.dsp = [1, 2, 3] ∧
      (fanOutURLs floor).map BidURL.p = [round3 floor, round3 floor, round3 floor] :=
  ⟨rfl, rfl, rfl⟩

lemma collect_cons (j : ℕ) (t : List ℕ) (outcomes : ℕ → DspOutcome) :
    collectResults (j :: t) outcomes =
      match askDSP j (outcomes j) with
      | none => collectResults t outcomes
      | some r => r :: collectResults t outcomes := by
  cases hout : askDSP j (outcomes j) with
  | none => simp [collectResults, List.filterMap_cons, hout]
  | some r => simp [collectResults, List.filterMap_cons, hout]

lemma collect_update_filter (arrival : List ℕ) (outcomes : ℕ → DspOutcome) (i : ℕ) :
    collectResults arrival (Function.update outcomes i DspOutcome.getErr) =
      (collectResults arrival outcomes).filter fun r => decide (r.DSPId ≠ i) := by
  induction arrival with
  | nil => rfl
  | cons j t ih =>
    rw [collect_cons, collect_cons]
    by_cases hji : j = i
    · subst hji
      rw [Function.update_same]
      cases hout : askDSP j (outcomes j) with
      | none => simpa [askDSP] using ih
      | some r =>
        have hid : r.DSPId = j := askDSP_some hout
        simp [askDSP, List.filter_cons, hid, ih]
    · rw [Function.update_noteq hji]
      cases hout : askDSP j (outcomes j) with
      | none => simpa using ih
      | some r =>
        have hid : r.DSPId = j := askDSP_some hout
        simp [List.filter_cons, hid, hji, ih]

/-- C8 amended: per-worker failures are isolated.  A worker whose
outbound call fails or whose body does not parse delivers nothing — no
collected entry carries its identity; flipping any one worker to a
failure only deletes that worker's own entry, leaving every sibling's
contribution intact; and whenever at least one worker delivered, the
auction selects a winner from among the delivered results.  (When all
fail, no winner exists — see the counterexample.) -/
theorem failures_isolated (arrival : List ℕ) (outcomes : ℕ → DspOutcome) :
    (∀ i, (outcomes i = DspOutcome.getErr ∨ outcomes i = DspOutcome.unmarshalErr) →
        ∀ r ∈ collectResults arrival outcomes, r.DSPId ≠ i) ∧
      (∀ i, collectResults arrival (Function.update outcomes i DspOutcome.getErr) =
        (collectResults arrival outcomes).filter fun r => decide (r.DSPId ≠ i)) ∧
      (collectResults arrival outcomes ≠ [] →
        ∃ w, HandlerAuction arrival outcomes = some w ∧
          w ∈ collectResults arrival outcomes) := by
  refine ⟨?_, fun i => collect_update_filter arrival outcomes i, ?_⟩
  · intro i hfail r hr heq
    obtain ⟨j, hj, hsome⟩ := List.mem_filterMap.mp hr
    have hid : r.DSPId = j := askDSP_some hsome
    have hij : j = i := by rw [← hid, heq]
    subst hij
    rcases hfail with h | h <;> rw [h] at hsome <;> simp [askDSP] at hsome
  · intro hne
    obtain ⟨w, hw, hmem, _⟩ := selectWinner_spec hne
    exact ⟨w, hw, hmem⟩

/-- C8 witness: bidder 1 delivers 7, bidder 2's call errors, bidder 3's
body is malformed; arrival order 2, 3, 1. -/
theorem failures_isolated_witness :
    (∀ i, ((fun i => if i = 1 then DspOutcome.ok 7 else
          if i = 2 then DspOutcome.getErr else DspOutcome.unmarshalErr) i =
            DspOutcome.getErr ∨
        (fun i => if i = 1 then DspOutcome.ok 7 else
          if i = 2 then DspOutcome.getErr else DspOutcome.unmarshalErr) i =
            DspOutcome.unmarshalErr) →
        ∀ r ∈ collectResults [2, 3, 1]
          (fun i => if i = 1 then DspOutcome.ok 7 else
            if i = 2 then DspOutcome.getErr else DspOutcome.unmarshalErr),
          r.DSPId ≠ i) ∧
      (∀ i, collectResults [2, 3, 1]
          (Function.update
            (fun i => if i = 1 then DspOutcome.ok 7 else
              if i = 2 then DspOutcome.getErr else DspOutcome.unmarshalErr)
            i DspOutcome.getErr) =
        (collectResults [2, 3, 1]
          (fun i => if i = 1 then DspOutcome.ok 7 else
            if i = 2 then DspOutcome.getErr else DspOutcome.unmarshalErr)).filter
          fun r => decide (r.DSPId ≠ i)) ∧
      (collectResults [2, 3, 1]
          (fun i => if i = 1 then DspOutcome.ok 7 else
            if i = 2 then DspOutcome.getErr else DspOutcome.unmarshalErr) ≠ [] →
        ∃ w, HandlerAuction [2, 3, 1]
            (fun i => if i = 1 then DspOutcome.ok 7 else
              if i = 2 then DspOutcome.getErr else DspOutcome.unmarshalErr) = some w ∧
          w ∈ collectResults [2, 3, 1]
            (fun i => if i = 1 then DspOutcome.ok 7 else
              if i = 2 then DspOutcome.getErr else DspOutcome.unmarshalErr)) :=
  failures_isolated [2, 3, 1] _

/-- C8 counterexample: with every response body malformed nothing is
collected and no winner is selected — the round does not complete with a
winner (the final slice read panics), refuting the claim for the all-fail
outcome pattern. -/
theorem all_bodies_malformed_no_winner :
    collectResults [1, 2, 3] (fun _ => DspOutcome.unmarshalErr) = [] ∧
      HandlerAuction [1, 2, 3] (fun _ => DspOutcome.unmarshalErr) = none :=
  ⟨rfl, rfl⟩

/-- C9: every collected entry carries a bidder identity in `[1, MaxDSP]`,
and at most `MaxDSP` entries are ever collected — each worker contributes
at most one result. -/
theorem collected_ids_in_range (arrival : List ℕ) (outcomes : ℕ → DspOutcome)
    (hperm : arrival.Perm [1, 2, 3]) :
    (∀ r ∈ collectResults arrival outcomes, 1 ≤ r.DSPId ∧ r.DSPId ≤ MaxDSP) ∧
      (collectResults arrival outcomes).length ≤ MaxDSP := by
  constructor
  · intro r hr
    obtain ⟨i, hi, hsome⟩ := List.mem_filterMap.mp hr
    have hid : r.DSPId = i := askDSP_some hsome
    have hmem : i ∈ [1, 2, 3] := hperm.mem_iff.mp hi
    rw [hid]
    show 1 ≤ i ∧ i ≤ 3
    rcases List.mem_cons.mp hmem with rfl | h2
    · omega
    rcases List.mem_cons.mp h2 with rfl | h3
    · omega
    rcases List.mem_cons.mp h3 with rfl | h4
    · omega
    · exact absurd h4 (List.not_mem_nil i)
  · show (collectResults arrival outcomes).length ≤ 3
    calc (collectResults arrival outcomes).length
        ≤ arrival.length := List.length_filterMap_le _ _
      _ = 3 := by rw [hperm.length_eq]; rfl

/-- C9 witness: arrival order 2, 1, 3 with only bidder 2 delivering. -/
theorem collected_ids_in_range_witness :
    (∀ r ∈ collectResults [2, 1, 3]
        (fun i => if i = 2 then DspOutcome.ok 7 else DspOutcome.getErr),
        1 ≤ r.DSPId ∧ r.DSPId ≤ MaxDSP) ∧
      (collectResults [2, 1, 3]
        (fun i => if i = 2 then DspOutcome.ok 7 else DspOutcome.getErr)).length ≤
        MaxDSP :=
  collected_ids_in_range _ _ (by decide)

/-- C10: each outbound URL's `p` value is the round's floor rounded to 3
decimal places; that transmitted value is within `1/2000 = 0.0005` of the
generated floor and equals it exactly when and only when the floor is an
integer multiple of `1/1000` (needs at most 3 decimal digits). -/
theorem url_floor_rounded (floor : ℚ) (dspId : ℕ) (hf : 0 ≤ floor) :
    (makeBidURL floor dspId).p = round3 floor ∧
      |round3 floor - floor| ≤ 1/2000 ∧
      (round3 floor = floor ↔ ∃ n : ℤ, floor = (n : ℚ) / 1000) := by
  have h0 : (0:ℚ) ≤ floor * 1000 := by positivity
  refine ⟨rfl, ?_, ?_, ?_⟩
  · have hlo := Int.sub_one_lt_floor (floor * 1000 + 1/2)
    have hhi := Int.floor_le (floor * 1000 + 1/2)
    unfold round3 goRound
    rw [if_pos h0, abs_le]
    constructor
    · linarith
    · linarith
  · intro h
    refine ⟨⌊floor * 1000 + 1/2⌋, ?_⟩
    unfold round3 goRound at h
    rw [if_pos h0] at h
    exact h.symm
  · rintro ⟨n, rfl⟩
    unfold round3 goRound
    rw [if_pos h0]
    rw [show ((n:ℚ)/1000) * 1000 = (n:ℚ) from by field_simp, Int.floor_int_add,
      show ⌊(1/2 : ℚ)⌋ = 0 from by norm_num]
    push_cast
    ring

/-- C10 witness: an integral floor is transmitted unchanged; the round
trips through the 3-decimal format identically. -/
theorem url_floor_rounded_witness :
    (makeBidURL 5 1).p = round3 5 ∧
      |round3 5 - 5| ≤ 1/2000 ∧
      (round3 5 = 5 ↔ ∃ n : ℤ, (5:ℚ) = (n : ℚ) / 1000) :=
  url_floor_rounded 5 1 (by decide)

